import Mathlib

/-
Verification of the Mandelbrot renderer core: the colorizer `colorir`, the
zoom-selection release handler `App._on_release`, the pixel-to-plane mapping
`App._px` and the reset operation `App.resetar` from src/mandelbrotUI.py, the
batch driver `calcular` from src/mandelbrot_case.py, and the escape-time
engine `calculate_mandelbrot` (which lives in a compiled C++ library and is
modelled here from its specification).

Numeric conventions of the embedding: pixel coordinates are integers (Tkinter
event coordinates); plane coordinates, which the Python code holds as IEEE
doubles, are embedded as exact rationals for the coordinate/zoom logic, whose
claims are purely order/field algebraic; the colorizer, which genuinely uses
the transcendental log, is embedded over the reals.
-/

namespace Mandelbrot

/-- The viewport bounds `[minReal, maxReal, minImag, maxImag]` held in
`App.bounds` (and in each entry of `CASES`). -/
structure Bounds where
  minReal : ℚ
  maxReal : ℚ
  minImag : ℚ
  maxImag : ℚ
  deriving DecidableEq, Repr

/-- Validity invariant of a viewport rectangle: `minReal < maxReal` and
`minImag < maxImag`. -/
def Bounds.valid (b : Bounds) : Prop :=
  b.minReal < b.maxReal ∧ b.minImag < b.maxImag

instance (b : Bounds) : Decidable b.valid := by
  unfold Bounds.valid; infer_instance

/-- `App.Bounds_Default = [-2.5, 1.0, -1.2, 1.2]`. -/
def boundsDefault : Bounds :=
  { minReal := -5/2, maxReal := 1, minImag := -6/5, maxImag := 6/5 }

/-- `App._px(x, y)`: converts pixel coordinates to the complex plane,
`(mR + x / W * (MR - mR), mI + y / H * (MI - mI))`.  `W` and `H` are the
raster size (the class constants `App.W = 700`, `App.H = 500`). -/
def px (W H : ℕ) (b : Bounds) (x y : ℚ) : ℚ × ℚ :=
  (b.minReal + x / (W : ℚ) * (b.maxReal - b.minReal),
   b.minImag + y / (H : ℚ) * (b.maxImag - b.minImag))

/-- The interactive state the release handler touches: the current viewport
`self.bounds` and the selection anchor `self._sel_start` (present exactly
while a press is pending). -/
structure AppState where
  bounds : Bounds
  selStart : Option (ℤ × ℤ)
  deriving DecidableEq, Repr

/-- `App.resetar`: restores the default bounds and re-renders.  The second
component records that a render was triggered. -/
def resetar (s : AppState) : AppState × Bool :=
  ({ s with bounds := boundsDefault }, true)

/-- `App._on_release(event)` with `event.x = x1`, `event.y = y1`: if no press
is recorded it returns at once; otherwise it clears the anchor, discards
selections smaller than 5 pixels on either axis, and otherwise normalizes the
corners with the two independent swaps, converts both through `_px` and
installs the new bounds.  The second component records whether `renderizar`
was called. -/
def onRelease (W H : ℕ) (s : AppState) (x1 y1 : ℤ) : AppState × Bool :=
  match s.selStart with
  | none => (s, false)
  | some (x0, y0) =>
    if |x1 - x0| < 5 ∨ |y1 - y0| < 5 then
      ({ s with selStart := none }, false)
    else
      let xl := min x0 x1
      let xr := max x0 x1
      let yt := min y0 y1
      let yb := max y0 y1
      let p0 := px W H s.bounds (xl : ℚ) (yt : ℚ)
      let p1 := px W H s.bounds (xr : ℚ) (yb : ℚ)
      ({ bounds := { minReal := p0.1, maxReal := p1.1,
                     minImag := p0.2, maxImag := p1.2 },
         selStart := none }, true)

/-- Modelled from the spec: one escape-time loop step for `c = cr + i*ci`,
expanding `z*z + c` as `(zr*zr - zi*zi + cr) + i*(2*zr*zi + ci)`.  The loop
body lives in the compiled C++ routine `calculate_mandelbrot` (main.so),
which is absent from the sources; only its ctypes declaration and callers
appear in src/. -/
def escapeStep (cr ci zr zi : ℚ) : ℚ × ℚ :=
  (zr * zr - zi * zi + cr, 2 * zr * zi + ci)

/-- Modelled from the spec: the escape-time loop: starting from `z`, with `n`
iterations already spent and `fuel` iterations of budget remaining, iterate
`z ← z*z + c` until `|z|^2 > 4` or the budget runs out, and return the final
count.  The C++ arithmetic is double precision; exact rationals stand in for
it here. -/
def escapeAux (cr ci : ℚ) : ℕ → ℚ → ℚ → ℕ → ℕ
  | 0, _, _, n => n
  | fuel + 1, zr, zi, n =>
    if zr * zr + zi * zi > 4 then n
    else escapeAux cr ci fuel (escapeStep cr ci zr zi).1 (escapeStep cr ci zr zi).2 (n + 1)

/-- Modelled from the spec: the per-pixel escape count: iterate from `z = 0`
with the full budget. -/
def escapeCount (cr ci : ℚ) (budget : ℕ) : ℕ :=
  escapeAux cr ci budget 0 0 0

/-- Modelled from the spec: `calculate_mandelbrot` / `calcular`: the dense
`H × W` iteration matrix, row-major, sampling pixel `(x, y)` at the complex
point given by the linear pixel-to-plane mapping. -/
def calcular (W H : ℕ) (b : Bounds) (budget : ℕ) : List (List ℕ) :=
  (List.range H).map fun y =>
    (List.range W).map fun x =>
      escapeCount (px W H b (x : ℚ) (y : ℚ)).1 (px W H b (x : ℚ) (y : ℚ)).2 budget

/-- The clamped intensity of `colorir`:
`t = np.clip(np.log1p(n) / np.log1p(max_iter), 0.0, 1.0)`
(`log1p x = log (1 + x)`). -/
noncomputable def tIntensity (n maxIter : ℕ) : ℝ :=
  min 1 (max 0 (Real.log (1 + (n : ℝ)) / Real.log (1 + (maxIter : ℝ))))

/-- numpy `astype(np.uint8)` on a nonnegative double: truncation toward zero
(floor, for nonnegative values) followed by the wrap-around of the C cast to
an unsigned byte. -/
noncomputable def npUint8 (x : ℝ) : ℕ :=
  (Int.toNat ⌊x⌋) % 256

/-- `colorir` restated per entry: the channels
`r = (t * 100).astype(np.uint8)`, `g = (t * 180).astype(np.uint8)`,
`b = (t * 255).astype(np.uint8)`, with the entries having
`iters >= max_iter` overwritten with `(0, 0, 0)` by the `inside` mask. -/
noncomputable def colorirPixel (n maxIter : ℕ) : ℕ × ℕ × ℕ :=
  if maxIter ≤ n then (0, 0, 0)
  else (npUint8 (tIntensity n maxIter * 100),
        npUint8 (tIntensity n maxIter * 180),
        npUint8 (tIntensity n maxIter * 255))

/-- `colorir(iters, max_iter)`: the RGB image, one `(r, g, b)` triple per
matrix entry, same shape as the input. -/
noncomputable def colorir (iters : List (List ℕ)) (maxIter : ℕ) :
    List (List (ℕ × ℕ × ℕ)) :=
  iters.map fun row => row.map fun n => colorirPixel n maxIter

/-- Written from the words of the spec and of claim C2, for comparison with
`colorirPixel`: channel values `round (c * t)` clamped to the byte range
`[0, 255]`. -/
noncomputable def claimedChannel (c : ℕ) (t : ℝ) : ℕ :=
  Int.toNat (min 255 (max 0 (round (t * (c : ℝ)))))

/-- Written from the words of the spec and of claim C2, for comparison with
`colorirPixel`: the claimed per-entry colorizer output, rounding each
channel. -/
noncomputable def claimedPixel (n maxIter : ℕ) : ℕ × ℕ × ℕ :=
  if maxIter ≤ n then (0, 0, 0)
  else (claimedChannel 100 (tIntensity n maxIter),
        claimedChannel 180 (tIntensity n maxIter),
        claimedChannel 255 (tIntensity n maxIter))

/-- Modelled from the spec: the plane-to-pixel inverse mapping
`px = (re - minReal)/(maxReal - minReal) * widthPx`, and analogously for
`py`; the source implements only the forward direction `App._px`. -/
def planeToPx (W H : ℕ) (b : Bounds) (re im : ℚ) : ℚ × ℚ :=
  ((re - b.minReal) / (b.maxReal - b.minReal) * (W : ℚ),
   (im - b.minImag) / (b.maxImag - b.minImag) * (H : ℚ))

/-! Helper lemmas -/

lemma escapeAux_le (cr ci : ℚ) :
    ∀ (fuel : ℕ) (zr zi : ℚ) (n : ℕ), escapeAux cr ci fuel zr zi n ≤ n + fuel := by
  intro fuel
  induction fuel with
  | zero => intro zr zi n; simp [escapeAux]
  | succ f ih =>
    intro zr zi n
    simp only [escapeAux]
    split
    · omega
    · exact le_trans (ih _ _ _) (by omega)

lemma escapeCount_le (cr ci : ℚ) (budget : ℕ) : escapeCount cr ci budget ≤ budget := by
  simpa using escapeAux_le cr ci budget 0 0 0

/-- C9: every entry of the iteration matrix returned by the compute call lies
in the range `[0, iterationBudget]`. -/
theorem C9_calcular_entries_in_range (W H : ℕ) (b : Bounds) (budget : ℕ)
    (hW : 0 < W) (hH : 0 < H) (hb : b.valid) (hbudget : 0 < budget)
    (row : List ℕ) (n : ℕ)
    (hrow : row ∈ calcular W H b budget) (hn : n ∈ row) :
    0 ≤ n ∧ n ≤ budget := by
  refine ⟨Nat.zero_le n, ?_⟩
  rw [calcular] at hrow
  obtain ⟨y, _, rfl⟩ := List.mem_map.mp hrow
  obtain ⟨x, _, rfl⟩ := List.mem_map.mp hn
  exact escapeCount_le _ _ budget

/-- C10: a release with no recorded press is a no-op: the state (bounds
included) is unchanged and no render is triggered. -/
theorem C10_release_without_press_noop (W H : ℕ) (s : AppState) (x1 y1 : ℤ)
    (hsel : s.selStart = none) :
    onRelease W H s x1 y1 = (s, false) := by
  rw [onRelease, hsel]

/-- C3: a release whose selection is smaller than 5 pixels on either axis is
discarded: the bounds are unchanged and no render is triggered. -/
theorem C3_release_degenerate_discarded (W H : ℕ) (s : AppState) (x0 y0 x1 y1 : ℤ)
    (hsel : s.selStart = some (x0, y0))
    (hdeg : |x1 - x0| < 5 ∨ |y1 - y0| < 5) :
    (onRelease W H s x1 y1).1.bounds = s.bounds ∧
    (onRelease W H s x1 y1).2 = false := by
  rw [onRelease, hsel]
  simp [if_pos hdeg]

/-- C4: on each axis independently, exchanging which corner was the press
point and which the release point leaves the installed result unchanged. -/
theorem C4_release_corner_order_irrelevant (W H : ℕ) (b : Bounds) (x0 y0 x1 y1 : ℤ) :
    onRelease W H ⟨b, some (x1, y1)⟩ x0 y0 = onRelease W H ⟨b, some (x0, y0)⟩ x1 y1 ∧
    onRelease W H ⟨b, some (x1, y0)⟩ x0 y1 = onRelease W H ⟨b, some (x0, y0)⟩ x1 y1 ∧
    onRelease W H ⟨b, some (x0, y1)⟩ x1 y0 = onRelease W H ⟨b, some (x0, y0)⟩ x1 y1 := by
  refine ⟨?_, ?_, ?_⟩ <;>
    simp only [onRelease, abs_sub_comm x0 x1, abs_sub_comm y0 y1,
      min_comm x0 x1, max_comm x0 x1, min_comm y0 y1, max_comm y0 y1]

lemma interp_mono (W : ℕ) (hW : 0 < W) {mn mx : ℚ} (h : mn < mx) {u v : ℚ}
    (huv : u < v) : mn + u / (W : ℚ) * (mx - mn) < mn + v / (W : ℚ) * (mx - mn) := by
  have hW' : (0 : ℚ) < (W : ℚ) := by exact_mod_cast hW
  have hd : (0 : ℚ) < mx - mn := by linarith
  have h1 : u / (W : ℚ) < v / (W : ℚ) := (div_lt_div_iff_of_pos_right hW').mpr huv
  nlinarith [mul_lt_mul_of_pos_right h1 hd]

lemma interp_ge_min (W : ℕ) {mn mx : ℚ} (h : mn < mx) {u : ℚ} (hu : 0 ≤ u) :
    mn ≤ mn + u / (W : ℚ) * (mx - mn) := by
  have hWnn : (0 : ℚ) ≤ (W : ℚ) := by positivity
  have hd : (0 : ℚ) < mx - mn := by linarith
  nlinarith [mul_nonneg (div_nonneg hu hWnn) (le_of_lt hd)]

lemma interp_lt_max (W : ℕ) (hW : 0 < W) {mn mx : ℚ} (h : mn < mx) {u : ℚ}
    (hu : u < (W : ℚ)) : mn + u / (W : ℚ) * (mx - mn) < mx := by
  have hW' : (0 : ℚ) < (W : ℚ) := by exact_mod_cast hW
  have hd : (0 : ℚ) < mx - mn := by linarith
  have h1 : u / (W : ℚ) < 1 := (div_lt_one hW').mpr hu
  nlinarith [mul_lt_mul_of_pos_right h1 hd]

/-- C6: the viewport validity invariant `minReal < maxReal ∧ minImag < maxImag`
is preserved by every release (degenerate or not) and by reset. -/
theorem C6_bounds_valid_preserved (W H : ℕ) (s : AppState) (x1 y1 : ℤ)
    (hW : 0 < W) (hH : 0 < H) (hb : s.bounds.valid) :
    (onRelease W H s x1 y1).1.bounds.valid ∧ (resetar s).1.bounds.valid := by
  obtain ⟨b, sel⟩ := s
  refine ⟨?_, by norm_num [resetar, boundsDefault, Bounds.valid]⟩
  obtain ⟨hb1, hb2⟩ := hb
  match sel with
  | none => simpa [onRelease] using ⟨hb1, hb2⟩
  | some (x0, y0) =>
    rw [onRelease]
    dsimp only
    by_cases hdeg : |x1 - x0| < 5 ∨ |y1 - y0| < 5
    · simpa [if_pos hdeg] using ⟨hb1, hb2⟩
    · rw [if_neg hdeg]
      dsimp only
      push_neg at hdeg
      obtain ⟨hdx, hdy⟩ := hdeg
      have hxne : x0 ≠ x1 := by intro h; rw [h] at hdx; simp at hdx
      have hyne : y0 ≠ y1 := by intro h; rw [h] at hdy; simp at hdy
      have hxlt : ((min x0 x1 : ℤ) : ℚ) < ((max x0 x1 : ℤ) : ℚ) := by
        exact_mod_cast (min_lt_max).mpr hxne
      have hylt : ((min y0 y1 : ℤ) : ℚ) < ((max y0 y1 : ℤ) : ℚ) := by
        exact_mod_cast (min_lt_max).mpr hyne
      exact ⟨interp_mono W hW hb1 hxlt, interp_mono H hH hb2 hylt⟩

/-- C5: a release that passes the 5-pixel guard, with both corners inside
the raster, installs bounds whose real and imaginary intervals are strict
subsets of the previous viewport intervals. -/
theorem C5_release_zoom_strict_subset (W H : ℕ) (b : Bounds) (x0 y0 x1 y1 : ℤ)
    (hW : 0 < W) (hH : 0 < H) (hb : b.valid)
    (hx0 : 0 ≤ x0) (hx0W : x0 < (W : ℤ)) (hx1 : 0 ≤ x1) (hx1W : x1 < (W : ℤ))
    (hy0 : 0 ≤ y0) (hy0H : y0 < (H : ℤ)) (hy1 : 0 ≤ y1) (hy1H : y1 < (H : ℤ))
    (hgx : 5 ≤ |x1 - x0|) (hgy : 5 ≤ |y1 - y0|) :
    Set.Icc (onRelease W H ⟨b, some (x0, y0)⟩ x1 y1).1.bounds.minReal
        (onRelease W H ⟨b, some (x0, y0)⟩ x1 y1).1.bounds.maxReal ⊂
      Set.Icc b.minReal b.maxReal ∧
    Set.Icc (onRelease W H ⟨b, some (x0, y0)⟩ x1 y1).1.bounds.minImag
        (onRelease W H ⟨b, some (x0, y0)⟩ x1 y1).1.bounds.maxImag ⊂
      Set.Icc b.minImag b.maxImag := by
  obtain ⟨hb1, hb2⟩ := hb
  have hdeg : ¬(|x1 - x0| < 5 ∨ |y1 - y0| < 5) := by push_neg; omega
  rw [onRelease]
  dsimp only
  rw [if_neg hdeg]
  simp only [px]
  have hxl : (0 : ℚ) ≤ ((min x0 x1 : ℤ) : ℚ) := by exact_mod_cast le_min hx0 hx1
  have hxr : ((max x0 x1 : ℤ) : ℚ) < (W : ℚ) := by exact_mod_cast max_lt hx0W hx1W
  have hyl : (0 : ℚ) ≤ ((min y0 y1 : ℤ) : ℚ) := by exact_mod_cast le_min hy0 hy1
  have hyr : ((max y0 y1 : ℤ) : ℚ) < (H : ℚ) := by exact_mod_cast max_lt hy0H hy1H
  have hA := interp_ge_min W hb1 hxl
  have hB := interp_lt_max W hW hb1 hxr
  have hC := interp_ge_min H hb2 hyl
  have hD := interp_lt_max H hH hb2 hyr
  constructor
  · rw [Set.ssubset_def]
    refine ⟨Set.Icc_subset_Icc hA (le_of_lt hB), fun hsub => ?_⟩
    have := hsub ⟨le_of_lt hb1, le_refl b.maxReal⟩
    exact absurd this.2 (not_le.mpr hB)
  · rw [Set.ssubset_def]
    refine ⟨Set.Icc_subset_Icc hC (le_of_lt hD), fun hsub => ?_⟩
    have := hsub ⟨le_of_lt hb2, le_refl b.maxImag⟩
    exact absurd this.2 (not_le.mpr hD)

/-- C7: mapping a raster pixel to the plane with `_px` and back with the
spec-level inverse recovers the pixel coordinates to within one unit (in
fact exactly). -/
theorem C7_px_roundtrip (W H : ℕ) (b : Bounds) (x y : ℤ)
    (hW : 0 < W) (hH : 0 < H) (hb : b.valid)
    (hx : 0 ≤ x) (hxW : x < (W : ℤ)) (hy : 0 ≤ y) (hyH : y < (H : ℤ)) :
    |(planeToPx W H b (px W H b (x : ℚ) (y : ℚ)).1 (px W H b (x : ℚ) (y : ℚ)).2).1 -
        (x : ℚ)| ≤ 1 ∧
    |(planeToPx W H b (px W H b (x : ℚ) (y : ℚ)).1 (px W H b (x : ℚ) (y : ℚ)).2).2 -
        (y : ℚ)| ≤ 1 := by
  obtain ⟨hb1, hb2⟩ := hb
  have hW' : ((W : ℚ)) ≠ 0 := by positivity
  have hH' : ((H : ℚ)) ≠ 0 := by positivity
  have hdR : b.maxReal - b.minReal ≠ 0 := by intro h; apply absurd hb1; linarith [sub_eq_zero.mp h]
  have hdI : b.maxImag - b.minImag ≠ 0 := by intro h; apply absurd hb2; linarith [sub_eq_zero.mp h]
  have h1 : (planeToPx W H b (px W H b (x : ℚ) (y : ℚ)).1
      (px W H b (x : ℚ) (y : ℚ)).2).1 = (x : ℚ) := by
    simp only [planeToPx, px]
    field_simp
    ring
  have h2 : (planeToPx W H b (px W H b (x : ℚ) (y : ℚ)).1
      (px W H b (x : ℚ) (y : ℚ)).2).2 = (y : ℚ) := by
    simp only [planeToPx, px]
    field_simp
    ring
  rw [h1, h2]
  norm_num

lemma tIntensity_nonneg (n maxIter : ℕ) : 0 ≤ tIntensity n maxIter :=
  le_min (by norm_num) (le_max_left 0 _)

lemma tIntensity_le_one (n maxIter : ℕ) : tIntensity n maxIter ≤ 1 :=
  min_le_left 1 _

lemma npUint8_eq_clamp {x : ℝ} (h0 : 0 ≤ x) (h255 : x ≤ 255) :
    npUint8 x = Int.toNat (min 255 (max 0 ⌊x⌋)) := by
  have hk0 : 0 ≤ ⌊x⌋ := Int.floor_nonneg.mpr h0
  have h255f : ⌊(255 : ℝ)⌋ = 255 := by
    rw [show (255 : ℝ) = ((255 : ℤ) : ℝ) by norm_num, Int.floor_intCast]
  have hk1 : ⌊x⌋ ≤ 255 := by
    have := Int.floor_le_floor h255
    rwa [h255f] at this
  unfold npUint8
  omega

/-- C1: every iteration-matrix entry at or above the budget is colored
exactly black `(0, 0, 0)` by `colorir`, wherever it sits in the matrix. -/
theorem C1_colorir_black (iters : List (List ℕ)) (maxIter i j n : ℕ) (row : List ℕ)
    (hB : 0 < maxIter) (hi : iters[i]? = some row) (hj : row[j]? = some n)
    (hn : maxIter ≤ n) :
    ∃ crow, (colorir iters maxIter)[i]? = some crow ∧
      crow[j]? = some ((0, 0, 0) : ℕ × ℕ × ℕ) := by
  refine ⟨row.map fun m => colorirPixel m maxIter, ?_, ?_⟩
  · rw [colorir, List.getElem?_map, hi]
    rfl
  · rw [List.getElem?_map, hj]
    simp [colorirPixel, if_pos hn]

/-- C2 (amended): in-range entries get channels `floor (100*t)`,
`floor (180*t)`, `floor (255*t)` (truncation, not rounding), each clamped to
the byte range: the wrap-around byte cast of the code agrees with clamping
because `t` is clamped to `[0, 1]` first. -/
theorem C2_colorir_gradient_floor (n maxIter : ℕ) (hB : 0 < maxIter) (hn : n < maxIter) :
    colorirPixel n maxIter =
      (Int.toNat (min 255 (max 0 ⌊tIntensity n maxIter * 100⌋)),
       Int.toNat (min 255 (max 0 ⌊tIntensity n maxIter * 180⌋)),
       Int.toNat (min 255 (max 0 ⌊tIntensity n maxIter * 255⌋))) := by
  have h0 := tIntensity_nonneg n maxIter
  have h1 := tIntensity_le_one n maxIter
  rw [colorirPixel, if_neg (not_le.mpr hn)]
  have e1 : npUint8 (tIntensity n maxIter * 100) =
      Int.toNat (min 255 (max 0 ⌊tIntensity n maxIter * 100⌋)) :=
    npUint8_eq_clamp (by positivity) (by nlinarith)
  have e2 : npUint8 (tIntensity n maxIter * 180) =
      Int.toNat (min 255 (max 0 ⌊tIntensity n maxIter * 180⌋)) :=
    npUint8_eq_clamp (by positivity) (by nlinarith)
  have e3 : npUint8 (tIntensity n maxIter * 255) =
      Int.toNat (min 255 (max 0 ⌊tIntensity n maxIter * 255⌋)) :=
    npUint8_eq_clamp (by positivity) (by nlinarith)
  rw [e1, e2, e3]

lemma tIntensity_two_eight : tIntensity 2 8 = 1 / 2 := by
  unfold tIntensity
  have h3 : (1 + ((2 : ℕ) : ℝ)) = 3 := by norm_num
  have h9 : (1 + ((8 : ℕ) : ℝ)) = (3 : ℝ) ^ (2 : ℕ) := by norm_num
  rw [h3, h9, Real.log_pow]
  have hl : (0 : ℝ) < Real.log 3 := Real.log_pos (by norm_num)
  have hq : Real.log 3 / ((2 : ℕ) * Real.log 3) = 1 / 2 := by
    field_simp
    ring
  rw [hq]
  norm_num

/-- C2 (counterexample): at entry `n = 2` with budget `8` the intensity is
exactly `t = 1/2`, so the blue channel of the code is
`floor (255 * 0.5) = 127` while the claimed rounding gives
`round 127.5 = 128`. -/
theorem C2_round_counterexample : colorirPixel 2 8 ≠ claimedPixel 2 8 := by
  have hL : (colorirPixel 2 8).2.2 = 127 := by
    rw [colorirPixel, if_neg (by norm_num), tIntensity_two_eight]
    dsimp only
    unfold npUint8
    have hf : ⌊(1 / 2 : ℝ) * 255⌋ = 127 := by
      rw [Int.floor_eq_iff] <;> norm_num
    rw [hf]
    rfl
  have hR : (claimedPixel 2 8).2.2 = 128 := by
    rw [claimedPixel, if_neg (by norm_num), tIntensity_two_eight]
    dsimp only
    unfold claimedChannel
    have hr : round ((1 / 2 : ℝ) * ((255 : ℕ) : ℝ)) = 128 := by
      rw [round_eq, show (1 / 2 : ℝ) * ((255 : ℕ) : ℝ) + 1 / 2 = ((128 : ℤ) : ℝ) by norm_num,
        Int.floor_intCast]
    rw [hr]
    rfl
  intro h
  have : (127 : ℕ) = 128 := by rw [← hL, h, hR]
  exact absurd this (by norm_num)

/-- C8: the colorizer is deterministic: equal matrices and equal budgets give
byte-identical images (the embedding is a pure function of its arguments, so
statelessness and non-mutation of the input hold by construction). -/
theorem C8_colorir_deterministic (m1 m2 : List (List ℕ)) (b1 b2 : ℕ)
    (hm : m1 = m2) (hb : b1 = b2) : colorir m1 b1 = colorir m2 b2 := by
  rw [hm, hb]

/-! Witnesses: each theorem with hypotheses applied at a concrete input. -/

/-- Witness for C1 at the 1×1 matrix `[[5]]` with budget 3. -/
theorem C1_colorir_black_witness :
    ∃ crow, (colorir [[5]] 3)[0]? = some crow ∧
      crow[0]? = some ((0, 0, 0) : ℕ × ℕ × ℕ) :=
  C1_colorir_black [[5]] 3 0 0 5 [5] (by norm_num) rfl rfl (by norm_num)

/-- Witness for the amended C2 at entry 2 with budget 8. -/
theorem C2_colorir_gradient_floor_witness :
    colorirPixel 2 8 =
      (Int.toNat (min 255 (max 0 ⌊tIntensity 2 8 * 100⌋)),
       Int.toNat (min 255 (max 0 ⌊tIntensity 2 8 * 180⌋)),
       Int.toNat (min 255 (max 0 ⌊tIntensity 2 8 * 255⌋))) :=
  C2_colorir_gradient_floor 2 8 (by norm_num) (by norm_num)

/-- Witness for C3: a 2×290-pixel selection is discarded. -/
theorem C3_release_degenerate_discarded_witness :
    (onRelease 700 500 ⟨boundsDefault, some (10, 10)⟩ 12 300).1.bounds = boundsDefault ∧
    (onRelease 700 500 ⟨boundsDefault, some (10, 10)⟩ 12 300).2 = false :=
  C3_release_degenerate_discarded 700 500 ⟨boundsDefault, some (10, 10)⟩ 10 10 12 300
    rfl (Or.inl (by norm_num))

/-- Witness for C5 on the default viewport with the selection from (100,100)
to (200,200). -/
theorem C5_release_zoom_strict_subset_witness :
    Set.Icc (onRelease 700 500 ⟨boundsDefault, some (100, 100)⟩ 200 200).1.bounds.minReal
        (onRelease 700 500 ⟨boundsDefault, some (100, 100)⟩ 200 200).1.bounds.maxReal ⊂
      Set.Icc boundsDefault.minReal boundsDefault.maxReal ∧
    Set.Icc (onRelease 700 500 ⟨boundsDefault, some (100, 100)⟩ 200 200).1.bounds.minImag
        (onRelease 700 500 ⟨boundsDefault, some (100, 100)⟩ 200 200).1.bounds.maxImag ⊂
      Set.Icc boundsDefault.minImag boundsDefault.maxImag :=
  C5_release_zoom_strict_subset 700 500 boundsDefault 100 100 200 200
    (by norm_num) (by norm_num) (by norm_num [Bounds.valid, boundsDefault])
    (by norm_num) (by norm_num) (by norm_num) (by norm_num)
    (by norm_num) (by norm_num) (by norm_num) (by norm_num)
    (by norm_num) (by norm_num)

/-- Witness for C6 on the default viewport. -/
theorem C6_bounds_valid_preserved_witness :
    (onRelease 700 500 ⟨boundsDefault, some (0, 0)⟩ 100 100).1.bounds.valid ∧
    (resetar ⟨boundsDefault, some (0, 0)⟩).1.bounds.valid :=
  C6_bounds_valid_preserved 700 500 ⟨boundsDefault, some (0, 0)⟩ 100 100
    (by norm_num) (by norm_num)
    (by show boundsDefault.valid; norm_num [Bounds.valid, boundsDefault])

/-- Witness for C7 at pixel (100, 100) of the default viewport. -/
theorem C7_px_roundtrip_witness :
    |(planeToPx 700 500 boundsDefault
        (px 700 500 boundsDefault (((100 : ℤ)) : ℚ) (((100 : ℤ)) : ℚ)).1
        (px 700 500 boundsDefault (((100 : ℤ)) : ℚ) (((100 : ℤ)) : ℚ)).2).1 -
      (((100 : ℤ)) : ℚ)| ≤ 1 ∧
    |(planeToPx 700 500 boundsDefault
        (px 700 500 boundsDefault (((100 : ℤ)) : ℚ) (((100 : ℤ)) : ℚ)).1
        (px 700 500 boundsDefault (((100 : ℤ)) : ℚ) (((100 : ℤ)) : ℚ)).2).2 -
      (((100 : ℤ)) : ℚ)| ≤ 1 :=
  C7_px_roundtrip 700 500 boundsDefault 100 100 (by norm_num) (by norm_num)
    (by norm_num [Bounds.valid, boundsDefault]) (by norm_num) (by norm_num)
    (by norm_num) (by norm_num)

/-- Witness for C8 on a concrete 2×2 matrix. -/
theorem C8_colorir_deterministic_witness :
    colorir [[0, 1], [2, 3]] 4 = colorir [[0, 1], [2, 3]] 4 :=
  C8_colorir_deterministic [[0, 1], [2, 3]] [[0, 1], [2, 3]] 4 4 rfl rfl

/-- Witness for C9 on a 1×1 raster over the default viewport with budget 1:
the single matrix entry is 1 and lies in `[0, 1]`. -/
theorem C9_calcular_entries_in_range_witness :
    [1] ∈ calcular 1 1 boundsDefault 1 ∧ (0 ≤ 1 ∧ 1 ≤ 1) := by
  have hrow : [1] ∈ calcular 1 1 boundsDefault 1 := by
    have h : calcular 1 1 boundsDefault 1 = [[1]] := by
      norm_num [calcular, escapeCount, escapeAux, escapeStep, px, boundsDefault,
        List.range_succ]
    rw [h]
    exact List.mem_singleton.mpr rfl
  exact ⟨hrow, C9_calcular_entries_in_range 1 1 boundsDefault 1 (by norm_num) (by norm_num)
    (by norm_num [Bounds.valid, boundsDefault]) (by norm_num) [1] 1 hrow
    (List.mem_singleton.mpr rfl)⟩

/-- Witness for C10: a release with no pending press leaves the state alone. -/
theorem C10_release_without_press_noop_witness :
    onRelease 700 500 ⟨boundsDefault, none⟩ 3 4 = (⟨boundsDefault, none⟩, false) :=
  C10_release_without_press_noop 700 500 ⟨boundsDefault, none⟩ 3 4 rfl

end Mandelbrot
